import Mathlib

/-!
# Verification of vortex-config core algorithms

A shallow embedding, in Lean 4, of the core data model and algorithms of the
vortex-config repository (a Spring-Cloud-Config-compatible configuration
server written in Rust), together with proofs of the specification claims
about them.

Embedding conventions:
* Rust `IndexMap<String, V>` (insertion-ordered map with unique keys) is
  modelled as an association list `List (String × V)`; `insert` of a fresh
  key appends at the end, `insert`/`get_mut`-assignment of an existing key
  replaces the value in place, both exactly as IndexMap does.
* `f64` durations of the refresh scheduler are modelled as exact rationals
  (`ℚ`); the sub-nanosecond rounding of `Duration::from_secs_f64` is below
  the specification's granularity.
* `f64` configuration values are modelled by `FloatVal`: an exact rational
  for finite floats plus the three non-finite values.  No float arithmetic
  is performed on configuration values, so this is faithful for equality.
* Fallible Rust functions returning `Result` become `Except String`.
-/

namespace Vortex

/-- A non-finite-aware model of an `f64` configuration value
(`OrderedFloat<f64>` in `vortex-core/src/config/value.rs`): finite floats
are carried exactly as rationals; NaN, +∞ and −∞ are explicit constructors.
`OrderedFloat` equality makes NaN equal to itself, which the single `nan`
constructor reflects. -/
inductive FloatVal where
  | finite (q : ℚ)
  | nan
  | posInf
  | negInf
deriving DecidableEq, Repr

/-- The recursive configuration value model
(`ConfigValue` in `vortex-core/src/config/value.rs`).
The object variant is an insertion-ordered association list, mirroring
`IndexMap<String, ConfigValue>`. -/
inductive ConfigValue where
  | null
  | bool (b : Bool)
  | integer (i : Int)
  | float (f : FloatVal)
  | string (s : String)
  | array (items : List ConfigValue)
  | obj (fields : List (String × ConfigValue))

namespace ConfigValue

/-- Rust `matches!(v, ConfigValue::Object(_))`. -/
def isObject : ConfigValue → Bool
  | .obj _ => true
  | _ => false

end ConfigValue

/-- First-match association-list lookup: `IndexMap::get`. -/
def lookupList (l : List (String × ConfigValue)) (k : String) : Option ConfigValue :=
  match l with
  | [] => none
  | (k', v) :: rest => if k' = k then some v else lookupList rest k

/-- Rust `IndexMap::insert` / assignment through `get_mut`: replaces the value of
the first occurrence of the key in place, otherwise appends the pair at the
end (IndexMap keeps insertion order and inserts fresh keys at the end). -/
def insertIdx (l : List (String × ConfigValue)) (k : String) (v : ConfigValue) :
    List (String × ConfigValue) :=
  match l with
  | [] => [(k, v)]
  | (k', v') :: rest => if k' = k then (k', v) :: rest else (k', v') :: insertIdx rest k v

/-- Rust `ConfigMap` (`vortex-core/src/config/map.rs`): a wrapper over the
insertion-ordered object map. -/
structure ConfigMap where
  inner : List (String × ConfigValue)

/-!
## Deep merge (`vortex-core/src/merge/mod.rs`)

`deep_merge` iterates the overlay's pairs in order, mutating the base map:
an existing key is merged in place through `merge_values`, a fresh key is
inserted (appended) with a clone of the overlay value.  `merge_values`
recurses when both sides are objects and otherwise replaces the base value
with the overlay value.  The top-level loop of `deep_merge` performs on the
wrapped map exactly what the object case of `merge_values` performs on a
nested map, so both are embedded by the same pair of functions.
-/

mutual

/-- Rust `merge_values`: recursive merge of two configuration values.  Both sides
objects → merge field lists; anything else → overlay wins. -/
def merge_values : ConfigValue → ConfigValue → ConfigValue
  | .obj baseFields, .obj overlayFields => .obj (mergeObjList baseFields overlayFields)
  | _, overlayVal => overlayVal

/-- The object-merging loop shared by `deep_merge` and the object case of
`merge_values`: fold the overlay pairs into the base list, merging values of
existing keys in place and appending fresh keys. -/
def mergeObjList (baseFields : List (String × ConfigValue)) :
    List (String × ConfigValue) → List (String × ConfigValue)
  | [] => baseFields
  | (k, overlayVal) :: rest =>
      let baseFields' :=
        match lookupList baseFields k with
        | some baseVal => insertIdx baseFields k (merge_values baseVal overlayVal)
        | none => baseFields ++ [(k, overlayVal)]
      mergeObjList baseFields' rest

end

/-- Rust `deep_merge(base, overlay)`: merges the overlay map into the base map
(the in-place mutation becomes the returned map). -/
def deep_merge (base overlay : ConfigMap) : ConfigMap :=
  ⟨mergeObjList base.inner overlay.inner⟩

/-! ### Lookup lemmas for the association-list operations -/

theorem lookupList_insertIdx_self (l : List (String × ConfigValue)) (k : String)
    (v : ConfigValue) : lookupList (insertIdx l k v) k = some v := by
  induction l with
  | nil => simp [insertIdx, lookupList]
  | cons hd tl ih =>
      obtain ⟨k', v'⟩ := hd
      by_cases h : k' = k
      · simp [insertIdx, lookupList, h]
      · simp [insertIdx, lookupList, h, ih]

theorem lookupList_insertIdx_ne (l : List (String × ConfigValue)) (k k' : String)
    (v : ConfigValue) (h : k' ≠ k) :
    lookupList (insertIdx l k' v) k = lookupList l k := by
  induction l with
  | nil => simp [insertIdx, lookupList, h]
  | cons hd tl ih =>
      obtain ⟨k'', v''⟩ := hd
      by_cases h2 : k'' = k'
      · subst h2
        simp [insertIdx, lookupList, h]
      · simp only [insertIdx, if_neg h2]
        by_cases h3 : k'' = k
        · simp [lookupList, h3]
        · simp [lookupList, h3, ih]

theorem lookupList_append_not_mem (l : List (String × ConfigValue)) (k k' : String)
    (v : ConfigValue) (h : k' ≠ k) :
    lookupList (l ++ [(k', v)]) k = lookupList l k := by
  induction l with
  | nil => simp [lookupList, h]
  | cons hd tl ih =>
      obtain ⟨k'', v''⟩ := hd
      by_cases h2 : k'' = k
      · simp [lookupList, h2]
      · simp [lookupList, h2, ih]

theorem lookupList_append_self (l : List (String × ConfigValue)) (k : String)
    (v : ConfigValue) (h : lookupList l k = none) :
    lookupList (l ++ [(k, v)]) k = some v := by
  induction l with
  | nil => simp [lookupList]
  | cons hd tl ih =>
      obtain ⟨k'', v''⟩ := hd
      by_cases h2 : k'' = k
      · simp [lookupList, h2] at h
      · simp [lookupList, h2] at h ⊢
        exact ih h

/-- Keys of an association list. -/
def keysOf (l : List (String × ConfigValue)) : List String := l.map Prod.fst

theorem keysOf_cons (k : String) (v : ConfigValue) (l : List (String × ConfigValue)) :
    keysOf ((k, v) :: l) = k :: keysOf l := rfl

theorem lookupList_eq_none_of_not_mem_keys (l : List (String × ConfigValue))
    (k : String) (h : k ∉ keysOf l) : lookupList l k = none := by
  induction l with
  | nil => rfl
  | cons hd tl ih =>
      obtain ⟨k', v'⟩ := hd
      rw [keysOf_cons, List.mem_cons, not_or] at h
      have hne : k' ≠ k := fun hh => h.1 hh.symm
      simp only [lookupList, if_neg hne]
      exact ih h.2

/-- The central characterisation of the merged map's lookup, valid whenever
the overlay has no duplicate keys (always true of an `IndexMap`). -/
theorem lookupList_mergeObjList (o : List (String × ConfigValue))
    (hnd : (keysOf o).Nodup) (b : List (String × ConfigValue)) (k : String) :
    lookupList (mergeObjList b o) k =
      match lookupList o k with
      | none => lookupList b k
      | some ov =>
          match lookupList b k with
          | none => some ov
          | some bv => some (merge_values bv ov) := by
  induction o generalizing b with
  | nil => simp [mergeObjList, lookupList]
  | cons hd tl ih =>
      obtain ⟨k', ov⟩ := hd
      rw [keysOf_cons, List.nodup_cons] at hnd
      have hnd' : (keysOf tl).Nodup := hnd.2
      have hk'tl : k' ∉ keysOf tl := hnd.1
      by_cases hkk : k' = k
      · subst hkk
        have htl : lookupList tl k' = none := lookupList_eq_none_of_not_mem_keys tl k' hk'tl
        cases hb : lookupList b k' with
        | some bv =>
            simp only [mergeObjList, hb]
            rw [ih hnd']
            simp [htl, lookupList_insertIdx_self, lookupList]
        | none =>
            simp only [mergeObjList, hb]
            rw [ih hnd']
            simp [htl, lookupList_append_self b k' ov hb, lookupList]
      · simp only [mergeObjList]
        cases hb : lookupList b k' with
        | some bv =>
            rw [ih hnd']
            cases htl : lookupList tl k with
            | none =>
                simp [htl, lookupList_insertIdx_ne b k k' _ hkk, lookupList, hkk]
            | some tv =>
                simp [htl, lookupList_insertIdx_ne b k k' _ hkk, lookupList, hkk]
        | none =>
            rw [ih hnd']
            cases htl : lookupList tl k with
            | none =>
                simp [htl, lookupList_append_not_mem b k k' _ hkk, lookupList, hkk]
            | some tv =>
                simp [htl, lookupList_append_not_mem b k k' _ hkk, lookupList, hkk]

theorem merge_values_not_object (bv ov : ConfigValue) (h : ov.isObject = false) :
    merge_values bv ov = ov := by
  cases bv <;> cases ov <;> simp_all [merge_values, ConfigValue.isObject]

/-- C2: the five behaviours of `deep_merge`, each as a statement about the
lookup of a key in the merged map. -/
theorem deep_merge_spec (base overlay : ConfigMap)
    (hnd : (keysOf overlay.inner).Nodup) :
    (∀ k, lookupList overlay.inner k = none →
        lookupList (deep_merge base overlay).inner k = lookupList base.inner k)
  ∧ (∀ k v, lookupList overlay.inner k = some v → v.isObject = false →
        lookupList (deep_merge base overlay).inner k = some v)
  ∧ (∀ k bf of, lookupList base.inner k = some (.obj bf) →
        lookupList overlay.inner k = some (.obj of) →
        lookupList (deep_merge base overlay).inner k = some (.obj (mergeObjList bf of)))
  ∧ (∀ k, lookupList base.inner k = none →
        lookupList (deep_merge base overlay).inner k = lookupList overlay.inner k)
  ∧ (∀ k a1 a2, lookupList base.inner k = some (.array a1) →
        lookupList overlay.inner k = some (.array a2) →
        lookupList (deep_merge base overlay).inner k = some (.array a2)) := by
  refine ⟨?_, ?_, ?_, ?_, ?_⟩
  · intro k ho
    rw [deep_merge, lookupList_mergeObjList overlay.inner hnd base.inner k, ho]
  · intro k v ho hno
    rw [deep_merge, lookupList_mergeObjList overlay.inner hnd base.inner k, ho]
    cases hb : lookupList base.inner k with
    | none => simp
    | some bv => simp [merge_values_not_object bv v hno]
  · intro k bf of hb ho
    rw [deep_merge, lookupList_mergeObjList overlay.inner hnd base.inner k, ho, hb]
    rfl
  · intro k hb
    rw [deep_merge, lookupList_mergeObjList overlay.inner hnd base.inner k]
    cases ho : lookupList overlay.inner k with
    | none => simpa using hb
    | some ov => simp [hb]
  · intro k a1 a2 hb ho
    rw [deep_merge, lookupList_mergeObjList overlay.inner hnd base.inner k, ho, hb]
    rfl

/-- Witness for `deep_merge_spec`: the concrete scenario of the repository's
own merge tests — base `{a: [1,2], s: {x: 1}, only: 7}`, overlay
`{a: [3], s: {y: 2}, fresh: "n"}`. -/
theorem deep_merge_spec_witness :
    lookupList (deep_merge
        ⟨[("a", .array [.integer 1, .integer 2]), ("s", .obj [("x", .integer 1)]),
          ("only", .integer 7)]⟩
        ⟨[("a", .array [.integer 3]), ("s", .obj [("y", .integer 2)]),
          ("fresh", .string "n")]⟩).inner "a" = some (.array [.integer 3]) ∧
    lookupList (deep_merge
        ⟨[("a", .array [.integer 1, .integer 2]), ("s", .obj [("x", .integer 1)]),
          ("only", .integer 7)]⟩
        ⟨[("a", .array [.integer 3]), ("s", .obj [("y", .integer 2)]),
          ("fresh", .string "n")]⟩).inner "only" = some (.integer 7) := by
  constructor
  · exact (deep_merge_spec
      ⟨[("a", .array [.integer 1, .integer 2]), ("s", .obj [("x", .integer 1)]),
        ("only", .integer 7)]⟩
      ⟨[("a", .array [.integer 3]), ("s", .obj [("y", .integer 2)]),
        ("fresh", .string "n")]⟩ (by simp [keysOf])).2.2.2.2 "a"
      [.integer 1, .integer 2] [.integer 3] rfl rfl
  · exact (deep_merge_spec
      ⟨[("a", .array [.integer 1, .integer 2]), ("s", .obj [("x", .integer 1)]),
        ("only", .integer 7)]⟩
      ⟨[("a", .array [.integer 3]), ("s", .obj [("y", .integer 2)]),
        ("fresh", .string "n")]⟩ (by simp [keysOf])).1 "only" rfl

/-!
## Dotted-path accessor (`ConfigMap::get`, `vortex-core/src/config/map.rs`)

`get` rejects the empty path, takes a fast path (a plain map lookup) for
paths without a `.`, and otherwise splits the path on `.` and walks the
segments, requiring every intermediate value to be an object.
-/

/-- Rust `str::split('.')` on a character list: `"" → [""]`, `"a.b" → ["a","b"]`,
`"a." → ["a",""]`. -/
def splitOnDot : List Char → List (List Char)
  | [] => [[]]
  | c :: rest =>
      let r := splitOnDot rest
      if c = '.' then [] :: r
      else
        match r with
        | [] => [[c]]
        | seg :: segs => (c :: seg) :: segs

theorem splitOnDot_ne_nil (cs : List Char) : splitOnDot cs ≠ [] := by
  cases cs with
  | nil => simp [splitOnDot]
  | cons c rest =>
      simp only [splitOnDot]
      by_cases h : c = '.'
      · simp [h]
      · simp only [if_neg h]
        cases splitOnDot rest <;> simp

theorem splitOnDot_no_dot (cs : List Char) (h : '.' ∉ cs) : splitOnDot cs = [cs] := by
  induction cs with
  | nil => rfl
  | cons c rest ih =>
      rw [List.mem_cons, not_or] at h
      have hne : ¬ c = '.' := fun hh => h.1 hh.symm
      simp only [splitOnDot, if_neg hne, ih h.2]

/-- The segment-walking loop of `ConfigMap::get`: after the first segment has
been looked up, each further segment requires the current value to be an
object and descends through it; any other shape returns `None`. -/
def descend : List String → ConfigValue → Option ConfigValue
  | [], v => some v
  | p :: ps, v =>
      match v with
      | .obj fields =>
          match lookupList fields p with
          | some v' => descend ps v'
          | none => none
      | _ => none

/-- Rust `ConfigMap::get(path)`: empty-path rejection, the dot-free fast path, and
the segment walk. -/
def ConfigMap.get (m : ConfigMap) (path : String) : Option ConfigValue :=
  if path.data = [] then none
  else if path.data.contains '.' = false then lookupList m.inner path
  else
    match (splitOnDot path.data).map (fun seg => String.mk seg) with
    | [] => none
    | p0 :: rest =>
        match lookupList m.inner p0 with
        | some v => descend rest v
        | none => none

/-- Modelled from the claim's wording: a single chain of lookups in which the
first segment is looked up in the map, every value reached before the last
segment must be an object, and the final segment is looked up in the last
object reached. -/
def chainLookup (fields : List (String × ConfigValue)) : List String → Option ConfigValue
  | [] => none
  | [k] => lookupList fields k
  | k :: rest =>
      match lookupList fields k with
      | some (.obj sub) => chainLookup sub rest
      | _ => none

theorem descend_eq_chainLookup (ks : List String) (fields : List (String × ConfigValue))
    (k : String) :
    (match lookupList fields k with
     | some v => descend ks v
     | none => none) = chainLookup fields (k :: ks) := by
  induction ks generalizing fields k with
  | nil =>
      cases h : lookupList fields k with
      | none => simp [chainLookup, h]
      | some v => simp [chainLookup, h, descend]
  | cons k' ks' ih =>
      cases h : lookupList fields k with
      | none => simp [chainLookup, h]
      | some v =>
          cases v with
          | obj sub =>
              simp only [chainLookup, h, descend]
              exact ih sub k'
          | null => simp [chainLookup, h, descend]
          | bool b => simp [chainLookup, h, descend]
          | integer i => simp [chainLookup, h, descend]
          | float f => simp [chainLookup, h, descend]
          | string s => simp [chainLookup, h, descend]
          | array a => simp [chainLookup, h, descend]

/-- C5: `ConfigMap::get` returns `some v` exactly when the path is non-empty
and the chain of segment lookups described by the claim reaches `v`; in every
other case (empty path, a missing segment, a non-object intermediate value)
it returns `none`. -/
theorem configMap_get_spec (m : ConfigMap) (path : String) (v : ConfigValue) :
    m.get path = some v ↔
      path.data ≠ [] ∧
        chainLookup m.inner ((splitOnDot path.data).map (fun seg => String.mk seg)) =
          some v := by
  by_cases hempty : path.data = []
  · simp [ConfigMap.get, hempty]
  · by_cases hdot : path.data.contains '.' = false
    · have hnotmem : '.' ∉ path.data := by simpa using hdot
      have hsplit : splitOnDot path.data = [path.data] := splitOnDot_no_dot _ hnotmem
      have hmk : String.mk path.data = path := rfl
      simp [ConfigMap.get, hempty, hdot, hnotmem, hsplit, chainLookup, hmk]
    · simp only [ConfigMap.get, if_neg hempty, if_neg hdot]
      split
      next hnil =>
        exact absurd (List.map_eq_nil_iff.mp hnil) (splitOnDot_ne_nil path.data)
      next p0 rest hsplit =>
        rw [hsplit, descend_eq_chainLookup rest m.inner p0]
        simp [hempty]

/-!
## Shared string primitives

Rust's `str::trim`, `str::starts_with` and `str::strip_prefix`, embedded
over the character list of a string so that every use is kernel-computable.
(`str::trim` trims Unicode whitespace; `Char.isWhitespace` agrees with it on
all ASCII input, which is all these claims exercise.)
-/

/-- Rust `str::trim`: drop whitespace from both ends. -/
def trimChars (cs : List Char) : List Char :=
  ((cs.dropWhile Char.isWhitespace).reverse.dropWhile Char.isWhitespace).reverse

/-- Rust `str::trim` on a `String`. -/
def trimStr (s : String) : String := String.mk (trimChars s.data)

/-- Rust `str::starts_with` for a string prefix. -/
def strStartsWith (p s : String) : Bool := p.data.isPrefixOf s.data

/-- Rust `str::starts_with` for a single-character pattern. -/
def startsWithChar (s : String) (c : Char) : Bool :=
  match s.data with
  | [] => false
  | c' :: _ => c' = c

/-- Rust `str::strip_prefix`: the remainder after the prefix, when the string
starts with it. -/
def dropPfx (p s : String) : Option String :=
  if strStartsWith p s then some (String.mk (s.data.drop p.data.length)) else none

/-!
## Git reference parsing (`GitRef::parse`, `vortex-git/src/repository/refs.rs`)

`parse` trims the label, then classifies: 40 ASCII-hex characters → commit;
`refs/tags/` or `tags/` prefix → tag (prefix stripped); `refs/heads/` prefix
→ branch (prefix stripped); anything else → branch of the trimmed label.
-/

/-- A Git reference: branch, tag, or commit. -/
inductive GitRef where
  | branch (name : String)
  | tag (name : String)
  | commit (sha : String)
deriving DecidableEq, Repr

/-- Rust `char::is_ascii_hexdigit`. -/
def isAsciiHexDigit (c : Char) : Bool :=
  c.isDigit || ('a' ≤ c && c ≤ 'f') || ('A' ≤ c && c ≤ 'F')

/-- Rust `GitRef::parse`. -/
def GitRef.parse (label : String) : GitRef :=
  let l := trimStr label
  if l.length = 40 && l.data.all isAsciiHexDigit then .commit l
  else
    match dropPfx "refs/tags/" l with
    | some tagName => .tag tagName
    | none =>
        match dropPfx "tags/" l with
        | some tagName => .tag tagName
        | none =>
            match dropPfx "refs/heads/" l with
            | some branchName => .branch branchName
            | none => .branch l

/-- Modelled from the claim's wording: the classification rules applied to a
label verbatim — 40 hex characters → commit of that string; `refs/tags/` or
`tags/` prefix → tag with the prefix stripped; `refs/heads/` prefix → branch
with the prefix stripped; otherwise branch of the string itself. -/
def classifyLabel (l : String) : GitRef :=
  if l.length = 40 && l.data.all isAsciiHexDigit then .commit l
  else if strStartsWith "refs/tags/" l then .tag (String.mk (l.data.drop "refs/tags/".data.length))
  else if strStartsWith "tags/" l then .tag (String.mk (l.data.drop "tags/".data.length))
  else if strStartsWith "refs/heads/" l then .branch (String.mk (l.data.drop "refs/heads/".data.length))
  else .branch l

/-- C7 counterexample: on a label with trailing whitespace the code trims
before classifying, so the result is not "Branch of the string itself" as
the claim states: `parse "main "` is `Branch "main"`, not `Branch "main "`
(which is what the claim's rules, applied verbatim, produce). -/
theorem gitRef_parse_counterexample :
    GitRef.parse "main " = GitRef.branch "main" ∧
    classifyLabel "main " = GitRef.branch "main " ∧
    GitRef.parse "main " ≠ classifyLabel "main " := by
  refine ⟨rfl, rfl, ?_⟩
  decide

/-- C7 (amended): `GitRef::parse` first trims ASCII whitespace from both ends
of the label and then classifies the trimmed string exactly by the claim's
rules: 40 hex characters → commit; `refs/tags/`/`tags/` prefix → tag with the
prefix stripped; `refs/heads/` prefix → branch with the prefix stripped;
every other trimmed string → branch of itself. -/
theorem gitRef_parse_spec (label : String) :
    GitRef.parse label = classifyLabel (trimStr label) := by
  show GitRef.parse label = classifyLabel (trimStr label)
  unfold GitRef.parse classifyLabel dropPfx
  by_cases hhex :
      ((trimStr label).length = 40 && (trimStr label).data.all isAsciiHexDigit) = true
  · simp [hhex]
  · by_cases h1 : strStartsWith "refs/tags/" (trimStr label) = true
    · simp [hhex, h1]
    · by_cases h2 : strStartsWith "tags/" (trimStr label) = true
      · simp [hhex, h1, h2]
      · by_cases h3 : strStartsWith "refs/heads/" (trimStr label) = true
        · simp [hhex, h1, h2, h3]
        · simp [hhex, h1, h2, h3]

/-!
## `.properties` parser (`vortex-core/src/format/properties.rs`)

Each input line is trimmed; empty lines and lines beginning with `#` or `!`
are skipped.  Every other line is split on its first `=` or `:`; a line with
no separator aborts the parse with an error naming the 1-based line number.
The key and value are trimmed and inserted into the nested object via
`insert_nested`, which overwrites a non-object intermediate segment with a
fresh empty object.
-/

/-- Rust `str::split_once(['=', ':'])` over the characters of a line: the pieces
before and after the first `=` or `:`, or `none` when neither occurs. -/
def splitOnceEqColon : List Char → Option (List Char × List Char)
  | [] => none
  | c :: rest =>
      if c = '=' || c = ':' then some ([], rest)
      else
        match splitOnceEqColon rest with
        | some (k, v) => some (c :: k, v)
        | none => none

/-- Rust `split_property_line`. -/
def split_property_line (line : String) : Option (String × String) :=
  match splitOnceEqColon line.data with
  | some (k, v) => some (String.mk k, String.mk v)
  | none => none

/-- The iterative part-walking loop of `insert_nested`: the last part inserts
the string value; an intermediate part descends into the existing object at
that key, or into a fresh empty object when the key is absent or holds a
non-object value, writing the updated object back in place. -/
def insertNestedParts (root : List (String × ConfigValue)) :
    List String → String → List (String × ConfigValue)
  | [], _ => root
  | [p], value => insertIdx root p (.string value)
  | p :: rest, value =>
      let sub :=
        match lookupList root p with
        | some (.obj m) => m
        | _ => []
      insertIdx root p (.obj (insertNestedParts sub rest value))

/-- Rust `insert_nested`: dot-free keys are inserted directly; dotted keys are
split on `.` and walked by `insertNestedParts`. -/
def insert_nested (root : List (String × ConfigValue)) (key value : String) :
    List (String × ConfigValue) :=
  if key.data.contains '.' = false then insertIdx root key (.string value)
  else insertNestedParts root ((splitOnDot key.data).map (fun seg => String.mk seg)) value

/-- The line loop of `PropertiesFormat::parse`, carrying the 0-based index of
the current line (the error message reports it 1-based). -/
def parseLines (n : Nat) (acc : List (String × ConfigValue)) :
    List String → Except String (List (String × ConfigValue))
  | [] => .ok acc
  | l :: ls =>
      let line := trimStr l
      if line.data.isEmpty || startsWithChar line '#' || startsWithChar line '!' then
        parseLines (n + 1) acc ls
      else
        match split_property_line line with
        | some (k, v) => parseLines (n + 1) (insert_nested acc (trimStr k) (trimStr v)) ls
        | none =>
            .error ("Invalid syntax at line " ++ toString (n + 1) ++ ": missing separator")

/-- Rust `PropertiesFormat::parse`: iterate the lines of the input from index 0. -/
def PropertiesFormat.parse (input : String) : Except String ConfigMap :=
  (parseLines 0 [] (input.splitOn "\n")).map ConfigMap.mk

/-- C8: the `.properties` parser (1) skips empty lines and lines whose
trimmed form begins with `#` or `!`, counting them in the line numbering;
(2) splits every other line on its first `=` or `:` and inserts the trimmed
key and value; (3) fails on a line with no separator with a parse error
naming that line's 1-based number; and (4) `insert_nested` overwrites an
intermediate segment that exists as a non-object with a fresh empty object
before nesting beneath it. -/
theorem properties_parse_spec :
    (∀ (n : Nat) acc (l : String) ls,
        ((trimStr l).data.isEmpty || startsWithChar (trimStr l) '#' ||
            startsWithChar (trimStr l) '!') = true →
        parseLines n acc (l :: ls) = parseLines (n + 1) acc ls)
  ∧ (∀ (n : Nat) acc (l : String) ls k v,
        ((trimStr l).data.isEmpty || startsWithChar (trimStr l) '#' ||
            startsWithChar (trimStr l) '!') = false →
        split_property_line (trimStr l) = some (k, v) →
        parseLines n acc (l :: ls) =
          parseLines (n + 1) (insert_nested acc (trimStr k) (trimStr v)) ls)
  ∧ (∀ (n : Nat) acc (l : String) ls,
        ((trimStr l).data.isEmpty || startsWithChar (trimStr l) '#' ||
            startsWithChar (trimStr l) '!') = false →
        split_property_line (trimStr l) = none →
        parseLines n acc (l :: ls) =
          .error ("Invalid syntax at line " ++ toString (n + 1) ++ ": missing separator"))
  ∧ (∀ root (p : String) rest v old, rest ≠ [] →
        lookupList root p = some old → old.isObject = false →
        lookupList (insertNestedParts root (p :: rest) v) p =
          some (.obj (insertNestedParts [] rest v))) := by
  refine ⟨?_, ?_, ?_, ?_⟩
  · intro n acc l ls h
    simp only [parseLines, h, if_true]
  · intro n acc l ls k v h hsplit
    simp only [parseLines, h, Bool.false_eq_true, if_false, hsplit]
  · intro n acc l ls h hsplit
    simp only [parseLines, h, Bool.false_eq_true, if_false, hsplit]
  · intro root p rest v old hne hlook hno
    obtain ⟨r1, rs⟩ := List.exists_cons_of_ne_nil hne
    obtain ⟨rs, rfl⟩ := rs
    have hsub :
        (match lookupList root p with
         | some (.obj m) => m
         | _ => ([] : List (String × ConfigValue))) = [] := by
      rw [hlook]
      cases old <;> simp_all [ConfigValue.isObject]
    simp only [insertNestedParts, hsub]
    exact lookupList_insertIdx_self root p _

/-- Witness for `properties_parse_spec`, exercising the no-separator error
(conjunct 3) and the non-object overwrite (conjunct 4) at concrete inputs. -/
theorem properties_parse_spec_witness :
    parseLines 0 [] ["nosep"] =
      .error ("Invalid syntax at line " ++ toString (0 + 1) ++ ": missing separator")
  ∧ lookupList (insertNestedParts [("a", .string "x")] ["a", "b"] "1") "a" =
      some (.obj (insertNestedParts [] ["b"] "1")) := by
  constructor
  · exact properties_parse_spec.2.2.1 0 [] "nosep" [] (by decide) rfl
  · exact properties_parse_spec.2.2.2 [("a", .string "x")] "a" ["b"] "1"
      (.string "x") (by decide) rfl rfl

/-!
## Refresh scheduler (`vortex-git/src/sync/scheduler.rs`, `sync/state.rs`)

Durations (`interval`, `max_backoff`, the running `current_backoff`) are
`f64` seconds in the code and are modelled as exact rationals; the
`backoff_multiplier` is likewise `f64 → ℚ`.  `Instant`-valued fields of
`GitState` do not bear on any claim and are left out of the state model.
-/

/-- Rust `RefreshConfig`. -/
structure RefreshConfig where
  interval : ℚ
  max_failures : Nat
  backoff_multiplier : ℚ
  max_backoff : ℚ

/-- Rust `GitState` (its claim-relevant fields): last known commit, last error,
consecutive-failure count. -/
structure GitState where
  commit : Option String
  last_error : Option String
  failure_count : Nat
deriving DecidableEq, Repr

/-- Rust `GitState::record_success`: store the commit, clear the error, zero the
failure count. -/
def record_success (_s : GitState) (c : String) : GitState :=
  { commit := some c, last_error := none, failure_count := 0 }

/-- Rust `GitState::record_failure`: store the error, increment the failure
count. -/
def record_failure (s : GitState) (e : String) : GitState :=
  { s with last_error := some e, failure_count := s.failure_count + 1 }

/-- The scheduler's mutable data: the shared `GitState` and the
`current_backoff` duration that the next tick will use. -/
structure SchedulerState where
  state : GitState
  current_backoff : ℚ
deriving DecidableEq, Repr

/-- Rust `RefreshScheduler::reset_backoff`. -/
def reset_backoff (cfg : RefreshConfig) (ss : SchedulerState) : SchedulerState :=
  { ss with current_backoff := cfg.interval }

/-- Rust `RefreshScheduler::increase_backoff`: reads the failure count from the
shared state and, only when it has reached `max_failures`, multiplies the
current backoff and caps it at `max_backoff`. -/
def increase_backoff (cfg : RefreshConfig) (ss : SchedulerState) : SchedulerState :=
  if ss.state.failure_count ≥ cfg.max_failures then
    { ss with current_backoff := min (ss.current_backoff * cfg.backoff_multiplier) cfg.max_backoff }
  else ss

/-- Rust `RefreshScheduler::do_refresh`, as a function of the outcome of
`refresh_repository()`: success records the commit and resets the backoff;
failure records the error (incrementing the failure count) and then applies
`increase_backoff`. -/
def do_refresh (cfg : RefreshConfig) (ss : SchedulerState)
    (result : Except String String) : SchedulerState :=
  match result with
  | .ok commit => reset_backoff cfg { ss with state := record_success ss.state commit }
  | .error e => increase_backoff cfg { ss with state := record_failure ss.state e }

/-- Rust `RefreshScheduler::trigger_refresh`, as a function of the outcome of
`refresh_repository()`: success records the commit and resets the backoff;
failure records the error only — it does NOT call `increase_backoff`. -/
def trigger_refresh (cfg : RefreshConfig) (ss : SchedulerState)
    (result : Except String String) : SchedulerState :=
  match result with
  | .ok commit => reset_backoff cfg { ss with state := record_success ss.state commit }
  | .error e => { ss with state := record_failure ss.state e }

/-- C4: a failed scheduled refresh records the error and increments the
failure count, and changes the interval used by the next tick — to
`min(current · multiplier, max_backoff)` — exactly when the new failure count
has reached `max_failures`; a successful refresh records the commit, zeroes
the failure count, and resets the interval to the configured base. -/
theorem scheduler_backoff_spec (cfg : RefreshConfig) (ss : SchedulerState)
    (e commit : String) :
    (do_refresh cfg ss (.error e)).state.last_error = some e
  ∧ (do_refresh cfg ss (.error e)).state.failure_count = ss.state.failure_count + 1
  ∧ (do_refresh cfg ss (.error e)).current_backoff =
      (if ss.state.failure_count + 1 ≥ cfg.max_failures
       then min (ss.current_backoff * cfg.backoff_multiplier) cfg.max_backoff
       else ss.current_backoff)
  ∧ (do_refresh cfg ss (.ok commit)).state.commit = some commit
  ∧ (do_refresh cfg ss (.ok commit)).state.failure_count = 0
  ∧ (do_refresh cfg ss (.ok commit)).current_backoff = cfg.interval := by
  by_cases h : ss.state.failure_count + 1 ≥ cfg.max_failures <;>
    refine ⟨?_, ?_, ?_, rfl, rfl, rfl⟩ <;>
    simp [do_refresh, increase_backoff, record_failure, h]

/-- C9 counterexample: with the default configuration (interval 30 s,
`max_failures` 3, multiplier 2, cap 300 s) and two prior consecutive
failures, a third failure through a scheduled tick raises the backoff to
60 s, but the same failure through `trigger_refresh` leaves it at 30 s —
`trigger_refresh` does not apply the backoff increase the claim asserts. -/
theorem trigger_refresh_counterexample :
    (trigger_refresh ⟨30, 3, 2, 300⟩ ⟨⟨none, some "x", 2⟩, 30⟩
        (.error "e")).current_backoff = 30
  ∧ (do_refresh ⟨30, 3, 2, 300⟩ ⟨⟨none, some "x", 2⟩, 30⟩
        (.error "e")).current_backoff = 60
  ∧ (trigger_refresh ⟨30, 3, 2, 300⟩ ⟨⟨none, some "x", 2⟩, 30⟩ (.error "e")).current_backoff ≠
      min ((30 : ℚ) * 2) 300 := by
  refine ⟨rfl, by norm_num [do_refresh, increase_backoff, record_failure],
    by norm_num [trigger_refresh, record_failure]⟩

/-- C9 (amended): `trigger_refresh` performs the same success accounting as a
scheduled tick (it records the commit and resets the backoff to the base
interval, agreeing with `do_refresh` exactly), and on failure it performs the
same state accounting (records the error, increments the failure count) but
leaves the backoff interval unchanged instead of applying the conditional
backoff increase. -/
theorem trigger_refresh_spec (cfg : RefreshConfig) (ss : SchedulerState)
    (commit e : String) :
    trigger_refresh cfg ss (.ok commit) = do_refresh cfg ss (.ok commit)
  ∧ (trigger_refresh cfg ss (.error e)).state = (do_refresh cfg ss (.error e)).state
  ∧ (trigger_refresh cfg ss (.error e)).current_backoff = ss.current_backoff := by
  refine ⟨rfl, ?_, rfl⟩
  by_cases h : (record_failure ss.state e).failure_count ≥ cfg.max_failures
  · simp [do_refresh, trigger_refresh, increase_backoff, h]
  · simp [do_refresh, trigger_refresh, increase_backoff, h]

/-!
## Cache keys and invalidation (`vortex-server/src/cache/keys.rs`,
`cache/invalidation.rs`)

The cache itself (a moka `Cache`) is modelled as an association list of
normalised keys to entries; `iter` is the list itself and `invalidate`
removes the entry for a key.  Glob matching models the `glob` crate's
`Pattern::matches` under its default options, where `*` matches any
character sequence and `?` any single character; character classes (`[...]`)
and the `**` component wildcard are outside the model, so pattern validity
is restricted to patterns using neither (`Pattern::new` accepts every such
pattern). -/

/-- Rust `char::to_lowercase` composed over a string (`str::to_lowercase`),
embedded over the character list. -/
def toLowerStr (s : String) : String := String.mk (s.data.map Char.toLower)

/-- Rust `CacheKey`: app/profile/label, each normalised to lower case by
`CacheKey::new`. -/
structure CacheKey where
  app : String
  profile : String
  label : String
deriving DecidableEq, Repr

/-- Rust `CacheKey::new`. -/
def CacheKey.new (app profile label : String) : CacheKey :=
  ⟨toLowerStr app, toLowerStr profile, toLowerStr label⟩

/-- Rust `Display for CacheKey`: `app:profile:label`. -/
def CacheKey.toString (k : CacheKey) : String :=
  k.app ++ ":" ++ k.profile ++ ":" ++ k.label

/-- Rust `InvalidationResult`. -/
structure InvalidationResult where
  count : Nat
  patterns : List String
deriving DecidableEq, Repr

/-- Rust `ConfigCache::invalidate`: remove the entry for the key. -/
def cacheInvalidate {α : Type} (cache : List (CacheKey × α)) (k : CacheKey) :
    List (CacheKey × α) :=
  cache.filter (fun kv => !(kv.1 == k))

/-- Rust `Pattern::matches` of the `glob` crate under default `MatchOptions`, for
patterns built from literals, `*` and `?`. -/
def globMatch : List Char → List Char → Bool
  | [], s => s.isEmpty
  | '*' :: ps, [] => globMatch ps []
  | '*' :: ps, c :: s' => globMatch ps (c :: s') || globMatch ('*' :: ps) s'
  | _ :: _, [] => false
  | '?' :: ps, _ :: s' => globMatch ps s'
  | p :: ps, c :: s' => (p = c) && globMatch ps s'
termination_by p s => p.length + s.length

/-- Rust `Pattern::matches` on strings. -/
def globMatchStr (pat s : String) : Bool := globMatch pat.data s.data

/-- No two adjacent `*` (the `glob` crate reserves `**` as a path-component
wildcard). -/
def noDoubleStar : List Char → Bool
  | '*' :: '*' :: _ => false
  | _ :: rest => noDoubleStar rest
  | [] => true

/-- The modelled fragment of `Pattern::new` validity: every bracket-free,
`**`-free pattern is accepted by the `glob` crate. -/
def patternValid (pat : String) : Bool :=
  !pat.data.contains '[' && noDoubleStar pat.data

/-- Rust `ConfigCache::invalidate_by_app_profile_label`: invalidate the single
normalised key and report `count: 1` unconditionally. -/
def invalidate_by_app_profile_label {α : Type} (cache : List (CacheKey × α))
    (app profile label : String) : List (CacheKey × α) × InvalidationResult :=
  let key := CacheKey.new app profile label
  (cacheInvalidate cache key, ⟨1, [key.toString]⟩)

/-- Rust `ConfigCache::invalidate_by_pattern`: an invalid pattern is dropped with
a zero count; otherwise the keys whose stringified form matches the pattern
are collected from the iteration snapshot, each is invalidated, and the
count is the number collected. -/
def invalidate_by_pattern {α : Type} (cache : List (CacheKey × α)) (patStr : String) :
    List (CacheKey × α) × InvalidationResult :=
  if patternValid patStr then
    let matched := (cache.filter (fun kv => globMatchStr patStr kv.1.toString)).map Prod.fst
    (matched.foldl cacheInvalidate cache, ⟨matched.length, [patStr]⟩)
  else (cache, ⟨0, [patStr]⟩)

/-- C10: `invalidate_by_app_profile_label` reports an invalidation count of 1
for every cache content — including when no entry exists for the normalised
key — whereas `invalidate_by_pattern` reports the number of entries whose
stringified key matches the pattern. -/
theorem invalidate_count_spec {α : Type} (cache : List (CacheKey × α))
    (app profile label : String) :
    (invalidate_by_app_profile_label cache app profile label).2.count = 1
  ∧ (∀ pat : String, patternValid pat = true →
      (invalidate_by_pattern cache pat).2.count =
        (cache.filter (fun kv => globMatchStr pat kv.1.toString)).length) := by
  constructor
  · rfl
  · intro pat hvalid
    simp [invalidate_by_pattern, hvalid]

/-- Witness for `invalidate_count_spec`: an empty cache still reports a count
of 1 for the key-based invalidation, while the pattern `myapp:*:*` over a
one-entry cache reports the number of matching entries. -/
theorem invalidate_count_spec_witness :
    (invalidate_by_app_profile_label ([] : List (CacheKey × Nat)) "App" "PROD" "Main").2.count = 1
  ∧ (invalidate_by_pattern [(CacheKey.new "MyApp" "prod" "main", (0 : Nat))]
        "myapp:*:*").2.count =
      ([(CacheKey.new "MyApp" "prod" "main", (0 : Nat))].filter
        (fun kv => globMatchStr "myapp:*:*" kv.1.toString)).length := by
  constructor
  · exact (invalidate_count_spec ([] : List (CacheKey × Nat)) "App" "PROD" "Main").1
  · exact (invalidate_count_spec [(CacheKey.new "MyApp" "prod" "main", (0 : Nat))]
      "a" "b" "c").2 "myapp:*:*" (by decide)

/-!
## JSON / YAML round-trips (`ConfigMap::from_json/to_json/from_yaml/to_yaml`,
`vortex-core/src/config/map.rs`)

The codecs delegate to serde_json / serde_yaml; both are modelled at the
level of the document tree (the abstract syntax the libraries parse to and
print from), taking the libraries' text layer as faithful.  The model keeps
the libraries' documented number behaviour: serde_json's serializer writes a
non-finite `f64` (NaN, ±∞) as JSON `null`, while serde_yaml writes `.nan` /
`.inf` / `-.inf`, which parse back to the same non-finite value.  Untagged
deserialization maps integer nodes to `Integer` and float nodes to `Float`,
and object key order is preserved on both sides.
-/

/-- A JSON document tree (what serde_json parses to and prints from);
integer and float numbers are distinct nodes, and non-finite floats cannot
occur in a document. -/
inductive Json where
  | jnull
  | jbool (b : Bool)
  | jint (i : Int)
  | jfloat (q : ℚ)
  | jstr (s : String)
  | jarr (items : List Json)
  | jobj (fields : List (String × Json))

/-- A YAML document tree; YAML has literal spellings for NaN and the
infinities, so they are representable nodes. -/
inductive Yaml where
  | ynull
  | ybool (b : Bool)
  | yint (i : Int)
  | yfloat (q : ℚ)
  | ynan
  | yposInf
  | ynegInf
  | ystr (s : String)
  | yarr (items : List Yaml)
  | yobj (fields : List (String × Yaml))

mutual

/-- Serialization of a `ConfigValue` to the JSON tree (serde's `Serialize`
on the untagged enum, with serde_json's null-for-non-finite float rule). -/
def valueToJson : ConfigValue → Json
  | .null => .jnull
  | .bool b => .jbool b
  | .integer i => .jint i
  | .float (.finite q) => .jfloat q
  | .float .nan => .jnull
  | .float .posInf => .jnull
  | .float .negInf => .jnull
  | .string s => .jstr s
  | .array items => .jarr (valueToJsonList items)
  | .obj fields => .jobj (valueToJsonFields fields)

def valueToJsonList : List ConfigValue → List Json
  | [] => []
  | v :: vs => valueToJson v :: valueToJsonList vs

def valueToJsonFields : List (String × ConfigValue) → List (String × Json)
  | [] => []
  | (k, v) :: rest => (k, valueToJson v) :: valueToJsonFields rest

end

mutual

/-- Untagged deserialization of a JSON tree into a `ConfigValue` (serde's
`Deserialize`): null/bool/string map directly, integer nodes become
`Integer`, float nodes become `Float`. -/
def jsonToValue : Json → ConfigValue
  | .jnull => .null
  | .jbool b => .bool b
  | .jint i => .integer i
  | .jfloat q => .float (.finite q)
  | .jstr s => .string s
  | .jarr items => .array (jsonToValueList items)
  | .jobj fields => .obj (jsonToValueFields fields)

def jsonToValueList : List Json → List ConfigValue
  | [] => []
  | j :: js => jsonToValue j :: jsonToValueList js

def jsonToValueFields : List (String × Json) → List (String × ConfigValue)
  | [] => []
  | (k, j) :: rest => (k, jsonToValue j) :: jsonToValueFields rest

end

mutual

/-- Serialization of a `ConfigValue` to the YAML tree (serde_yaml spells
non-finite floats as `.nan` / `.inf` / `-.inf`). -/
def valueToYaml : ConfigValue → Yaml
  | .null => .ynull
  | .bool b => .ybool b
  | .integer i => .yint i
  | .float (.finite q) => .yfloat q
  | .float .nan => .ynan
  | .float .posInf => .yposInf
  | .float .negInf => .ynegInf
  | .string s => .ystr s
  | .array items => .yarr (valueToYamlList items)
  | .obj fields => .yobj (valueToYamlFields fields)

def valueToYamlList : List ConfigValue → List Yaml
  | [] => []
  | v :: vs => valueToYaml v :: valueToYamlList vs

def valueToYamlFields : List (String × ConfigValue) → List (String × Yaml)
  | [] => []
  | (k, v) :: rest => (k, valueToYaml v) :: valueToYamlFields rest

end

mutual

/-- Untagged deserialization of a YAML tree into a `ConfigValue` (`.nan`
parses back to an f64 NaN, which `OrderedFloat` equality identifies with
every NaN). -/
def yamlToValue : Yaml → ConfigValue
  | .ynull => .null
  | .ybool b => .bool b
  | .yint i => .integer i
  | .yfloat q => .float (.finite q)
  | .ynan => .float .nan
  | .yposInf => .float .posInf
  | .ynegInf => .float .negInf
  | .ystr s => .string s
  | .yarr items => .array (yamlToValueList items)
  | .yobj fields => .obj (yamlToValueFields fields)

def yamlToValueList : List Yaml → List ConfigValue
  | [] => []
  | y :: ys => yamlToValue y :: yamlToValueList ys

def yamlToValueFields : List (String × Yaml) → List (String × ConfigValue)
  | [] => []
  | (k, y) :: rest => (k, yamlToValue y) :: yamlToValueFields rest

end

mutual

/-- Returns `true` when every float occurring in the value is finite. -/
def finiteFloats : ConfigValue → Bool
  | .null => true
  | .bool _ => true
  | .integer _ => true
  | .string _ => true
  | .float (.finite _) => true
  | .float .nan => false
  | .float .posInf => false
  | .float .negInf => false
  | .array items => finiteFloatsList items
  | .obj fields => finiteFloatsFields fields

def finiteFloatsList : List ConfigValue → Bool
  | [] => true
  | v :: vs => finiteFloats v && finiteFloatsList vs

def finiteFloatsFields : List (String × ConfigValue) → Bool
  | [] => true
  | (_, v) :: rest => finiteFloats v && finiteFloatsFields rest

end

/-- Rust `ConfigMap::to_json`: a map serializes as a JSON object with its fields
in insertion order (`#[serde(flatten)]` over the inner `IndexMap`). -/
def ConfigMap.to_json (m : ConfigMap) : Json := .jobj (valueToJsonFields m.inner)

/-- Rust `ConfigMap::from_json`: only a JSON object deserializes into a map;
anything else is a parse error. -/
def ConfigMap.from_json (j : Json) : Except String ConfigMap :=
  match j with
  | .jobj fields => .ok ⟨jsonToValueFields fields⟩
  | _ => .error "json_source"

/-- Rust `ConfigMap::to_yaml`. -/
def ConfigMap.to_yaml (m : ConfigMap) : Yaml := .yobj (valueToYamlFields m.inner)

/-- Rust `ConfigMap::from_yaml`. -/
def ConfigMap.from_yaml (y : Yaml) : Except String ConfigMap :=
  match y with
  | .yobj fields => .ok ⟨yamlToValueFields fields⟩
  | _ => .error "yaml_source"

mutual

theorem jsonToValue_valueToJson (v : ConfigValue) (h : finiteFloats v = true) :
    jsonToValue (valueToJson v) = v := by
  cases v with
  | null => rfl
  | bool b => rfl
  | integer i => rfl
  | string s => rfl
  | float f =>
      cases f with
      | finite q => rfl
      | nan => simp [finiteFloats] at h
      | posInf => simp [finiteFloats] at h
      | negInf => simp [finiteFloats] at h
  | array items =>
      have hh := jsonToValue_valueToJson_list items (by simpa [finiteFloats] using h)
      simp [valueToJson, jsonToValue, hh]
  | obj fields =>
      have hh := jsonToValue_valueToJson_fields fields (by simpa [finiteFloats] using h)
      simp [valueToJson, jsonToValue, hh]

theorem jsonToValue_valueToJson_list (l : List ConfigValue)
    (h : finiteFloatsList l = true) : jsonToValueList (valueToJsonList l) = l := by
  cases l with
  | nil => rfl
  | cons v vs =>
      rw [finiteFloatsList, Bool.and_eq_true] at h
      simp [valueToJsonList, jsonToValueList, jsonToValue_valueToJson v h.1,
        jsonToValue_valueToJson_list vs h.2]

theorem jsonToValue_valueToJson_fields (l : List (String × ConfigValue))
    (h : finiteFloatsFields l = true) : jsonToValueFields (valueToJsonFields l) = l := by
  cases l with
  | nil => rfl
  | cons kv rest =>
      obtain ⟨k, v⟩ := kv
      rw [finiteFloatsFields, Bool.and_eq_true] at h
      simp [valueToJsonFields, jsonToValueFields, jsonToValue_valueToJson v h.1,
        jsonToValue_valueToJson_fields rest h.2]

end

mutual

theorem yamlToValue_valueToYaml (v : ConfigValue) : yamlToValue (valueToYaml v) = v := by
  cases v with
  | null => rfl
  | bool b => rfl
  | integer i => rfl
  | string s => rfl
  | float f => cases f <;> rfl
  | array items =>
      have hh := yamlToValue_valueToYaml_list items
      simp [valueToYaml, yamlToValue, hh]
  | obj fields =>
      have hh := yamlToValue_valueToYaml_fields fields
      simp [valueToYaml, yamlToValue, hh]

theorem yamlToValue_valueToYaml_list (l : List ConfigValue) :
    yamlToValueList (valueToYamlList l) = l := by
  cases l with
  | nil => rfl
  | cons v vs =>
      simp [valueToYamlList, yamlToValueList, yamlToValue_valueToYaml v,
        yamlToValue_valueToYaml_list vs]

theorem yamlToValue_valueToYaml_fields (l : List (String × ConfigValue)) :
    yamlToValueFields (valueToYamlFields l) = l := by
  cases l with
  | nil => rfl
  | cons kv rest =>
      obtain ⟨k, v⟩ := kv
      simp [valueToYamlFields, yamlToValueFields, yamlToValue_valueToYaml v,
        yamlToValue_valueToYaml_fields rest]

end

/-- C6 counterexample: a map holding a NaN float does not survive the JSON
round-trip — serde_json serializes the non-finite float as `null`, so it
parses back as `Null`, not as the original float. -/
theorem configMap_roundtrip_counterexample :
    ConfigMap.from_json (ConfigMap.to_json ⟨[("a", .float .nan)]⟩) =
      .ok ⟨[("a", ConfigValue.null)]⟩
  ∧ ConfigMap.from_json (ConfigMap.to_json ⟨[("a", .float .nan)]⟩) ≠
      .ok ⟨[("a", .float .nan)]⟩ := by
  refine ⟨rfl, ?_⟩
  intro h
  simp only [ConfigMap.to_json, ConfigMap.from_json, valueToJsonFields, valueToJson,
    jsonToValueFields, jsonToValue, Except.ok.injEq, ConfigMap.mk.injEq,
    List.cons.injEq, Prod.mk.injEq] at h
  exact ConfigValue.noConfusion h.1.2

/-- C6 (amended): the YAML round-trip is the identity on every `ConfigMap`
(under the structural, insertion-order-respecting equality), and the JSON
round-trip is the identity on every `ConfigMap` all of whose float values
are finite (a non-finite float is serialized as JSON `null` and comes back
as `Null`). -/
theorem configMap_roundtrip_spec (c : ConfigMap) :
    (finiteFloatsFields c.inner = true →
        ConfigMap.from_json (ConfigMap.to_json c) = .ok c)
  ∧ ConfigMap.from_yaml (ConfigMap.to_yaml c) = .ok c := by
  constructor
  · intro hfin
    simp [ConfigMap.to_json, ConfigMap.from_json,
      jsonToValue_valueToJson_fields c.inner hfin]
  · simp [ConfigMap.to_yaml, ConfigMap.from_yaml,
      yamlToValue_valueToYaml_fields c.inner]

/-- Witness for `configMap_roundtrip_spec`: the round-trips at a concrete
map holding a finite float, an integer and a nested object. -/
theorem configMap_roundtrip_spec_witness :
    ConfigMap.from_json (ConfigMap.to_json
        ⟨[("k", .float (.finite (3 / 2))), ("s", .obj [("n", .integer 5)])]⟩) =
      .ok ⟨[("k", .float (.finite (3 / 2))), ("s", .obj [("n", .integer 5)])]⟩
  ∧ ConfigMap.from_yaml (ConfigMap.to_yaml
        ⟨[("k", .float (.finite (3 / 2))), ("s", .obj [("n", .integer 5)])]⟩) =
      .ok ⟨[("k", .float (.finite (3 / 2))), ("s", .obj [("n", .integer 5)])]⟩ := by
  constructor
  · exact (configMap_roundtrip_spec
      ⟨[("k", .float (.finite (3 / 2))), ("s", .obj [("n", .integer 5)])]⟩).1 rfl
  · exact (configMap_roundtrip_spec
      ⟨[("k", .float (.finite (3 / 2))), ("s", .obj [("n", .integer 5)])]⟩).2

/-!
## Config file resolver (`vortex-git/src/reader/resolver.rs`)

Paths are modelled as component lists relative to the repository root, so
`base_path.join(p)` followed by `strip_prefix(base_path)` is the identity
and a path renders as its components joined with `/`.  The filesystem and
the parser (`ConfigParser::parse_file`, which can fail and propagates its
error through `resolve`) are parameters of the model.
-/

/-- Rust `PropertySource` (`vortex-core/src/config/source.rs`);
`PropertySource::new` leaves `origin` empty and `priority` zero. -/
structure PropertySource where
  name : String
  origin : String
  priority : Int
  config : ConfigMap

/-- Rust `PropertySource::new`. -/
def PropertySource.new (name : String) (config : ConfigMap) : PropertySource :=
  ⟨name, "", 0, config⟩

/-- The claim-relevant fields of `ConfigQuery`
(`vortex-git/src/source/query.rs`). -/
structure ConfigQuery where
  application : String
  profiles : List String

/-- Rust `ConfigFormat` (`vortex-git/src/reader/format.rs`). -/
inductive ConfigFormat where
  | yaml
  | json
  | properties
deriving DecidableEq, Repr

/-- Rust `ConfigFormat::extensions`. -/
def ConfigFormat.extensions : ConfigFormat → List String
  | .yaml => ["yml", "yaml"]
  | .json => ["json"]
  | .properties => ["properties"]

/-- Rust `ConfigFormat::all`. -/
def ConfigFormat.all : List ConfigFormat := [.yaml, .json, .properties]

/-- The resolver's environment: the repository's search paths, the set of
existing files (as relative component paths), and the file parser. -/
structure ResolverEnv where
  search_paths : List String
  fs : List String → Bool
  parse : List String → Except String ConfigMap

/-- The `filename` computed by `try_read_config`: `name` or
`name-profile`. -/
def mkFilename (name : String) (profile : Option String) : String :=
  match profile with
  | some p => name ++ "-" ++ p
  | none => name

/-- Rendering of a relative component path. -/
def joinPath (parts : List String) : String := String.intercalate "/" parts

/-- Rust `make_source_name`: `git:<label>:<relative-path-from-repo-root>`. -/
def make_source_name (label : String) (path : List String) : String :=
  "git:" ++ label ++ ":" ++ joinPath path

/-- The inner extension loop of `try_read_config` for one format's extension
list: the first existing file is parsed (errors propagate) and returned as a
property source; otherwise the next extension is tried. -/
def tryReadExts (env : ResolverEnv) (label : String) (base : List String)
    (filename : String) : List String → Except String (Option PropertySource)
  | [] => .ok none
  | ext :: rest =>
      let filePath := base ++ [filename ++ "." ++ ext]
      if env.fs filePath then
        match env.parse filePath with
        | .error e => .error e
        | .ok config => .ok (some (PropertySource.new (make_source_name label filePath) config))
      else tryReadExts env label base filename rest

/-- The outer format loop of `try_read_config`: formats are tried in the
order of `ConfigFormat::all`; a hit or an error in a format's extension loop
returns immediately. -/
def tryReadFormats (env : ResolverEnv) (label : String) (base : List String)
    (filename : String) : List ConfigFormat → Except String (Option PropertySource)
  | [] => .ok none
  | f :: fs =>
      match tryReadExts env label base filename f.extensions with
      | .ok none => tryReadFormats env label base filename fs
      | r => r

/-- Rust `try_read_config`. -/
def try_read_config (env : ResolverEnv) (label : String) (base : List String)
    (name : String) (profile : Option String) : Except String (Option PropertySource) :=
  tryReadFormats env label base (mkFilename name profile) ConfigFormat.all

/-- The per-profile loop of `resolve` (steps 2 and 4): for each profile in
order, the candidate `name-profile` is read and pushed when present. -/
def collectProfiles (env : ResolverEnv) (label : String) (base : List String)
    (name : String) : List String → Except String (List PropertySource)
  | [] => .ok []
  | p :: ps =>
      match try_read_config env label base name (some p) with
      | .error e => .error e
      | .ok o =>
          match collectProfiles env label base name ps with
          | .error e => .error e
          | .ok rest => .ok (o.toList ++ rest)

/-- The candidates generated by `resolve` for one search-path base, in
generation order: `application`, `application-<profile>` for each profile,
`<app>`, `<app>-<profile>` for each profile. -/
def resolveBase (env : ResolverEnv) (label : String) (base : List String)
    (app : String) (profiles : List String) : Except String (List PropertySource) :=
  match try_read_config env label base "application" none with
  | .error e => .error e
  | .ok o1 =>
      match collectProfiles env label base "application" profiles with
      | .error e => .error e
      | .ok l1 =>
          match try_read_config env label base app none with
          | .error e => .error e
          | .ok o2 =>
              match collectProfiles env label base app profiles with
              | .error e => .error e
              | .ok l2 => .ok (o1.toList ++ l1 ++ o2.toList ++ l2)

/-- An empty search-path list means the repository root only. -/
def effectiveSearchPaths (sps : List String) : List String :=
  if sps.isEmpty then [""] else sps

/-- The base directory of one search path (`base_path` itself for the empty
search path, `base_path.join(sp)` otherwise), as a relative path. -/
def baseOf (sp : String) : List String := if sp = "" then [] else [sp]

/-- The search-path loop of `resolve`, accumulating sources per path in
order. -/
def resolveAll (env : ResolverEnv) (label : String) (app : String)
    (profiles : List String) : List String → Except String (List PropertySource)
  | [] => .ok []
  | sp :: sps =>
      match resolveBase env label (baseOf sp) app profiles with
      | .error e => .error e
      | .ok here =>
          match resolveAll env label app profiles sps with
          | .error e => .error e
          | .ok more => .ok (here ++ more)

/-- Rust `ConfigFileResolver::resolve`: generate per search path, then reverse so
the highest-precedence source comes first. -/
def resolve (env : ResolverEnv) (q : ConfigQuery) (label : String) :
    Except String (List PropertySource) :=
  match resolveAll env label q.application q.profiles (effectiveSearchPaths env.search_paths) with
  | .error e => .error e
  | .ok sources => .ok sources.reverse

/-!
### The claim's description of `resolve`, as its own definition

`resolveSpec` below is modelled from the claim's wording: generate the
candidate bases in order (per search path: `application`,
`application-<profile>` per profile, `<app>`, `<app>-<profile>` per
profile); for each candidate pick the first extension of the priority order
`yml, yaml, json, properties` that exists on disk, silently omitting
candidates with no existing file; name each source
`git:<label>:<relative-path>`; finally reverse the whole list.
-/

/-- The extension priority order of the claim. -/
def extPriority : List String := ["yml", "yaml", "json", "properties"]

/-- The candidate `(base directory, file name without extension)` pairs in
generation order. -/
def specCandidates (searchPaths : List String) (app : String) (profiles : List String) :
    List (List String × String) :=
  (effectiveSearchPaths searchPaths).flatMap (fun sp =>
    let base := baseOf sp
    (base, "application") :: profiles.map (fun p => (base, "application" ++ "-" ++ p))
      ++ (base, app) :: profiles.map (fun p => (base, app ++ "-" ++ p)))

/-- The first extension of the priority order whose file exists for the
candidate. -/
def firstExistingExt (fs : List String → Bool) (base : List String)
    (filename : String) : Option String :=
  extPriority.find? (fun ext => fs (base ++ [filename ++ "." ++ ext]))

/-- Read the candidates in generation order: a candidate with no existing
extension is omitted; an existing one is parsed (errors propagate) and named
`git:<label>:<path>`. -/
def specCollect (env : ResolverEnv) (label : String) :
    List (List String × String) → Except String (List PropertySource)
  | [] => .ok []
  | (base, filename) :: rest =>
      match firstExistingExt env.fs base filename with
      | none => specCollect env label rest
      | some ext =>
          match env.parse (base ++ [filename ++ "." ++ ext]) with
          | .error e => .error e
          | .ok config =>
              match specCollect env label rest with
              | .error e => .error e
              | .ok more =>
                  .ok (PropertySource.new
                        (make_source_name label (base ++ [filename ++ "." ++ ext])) config :: more)

/-- The claim's description of the resolver: the generation-order reading of
the candidates, reversed. -/
def resolveSpec (env : ResolverEnv) (q : ConfigQuery) (label : String) :
    Except String (List PropertySource) :=
  match specCollect env label (specCandidates env.search_paths q.application q.profiles) with
  | .error e => .error e
  | .ok sources => .ok sources.reverse

theorem tryReadExts_append (env : ResolverEnv) (label : String) (base : List String)
    (fn : String) (l1 l2 : List String) :
    tryReadExts env label base fn (l1 ++ l2) =
      match tryReadExts env label base fn l1 with
      | .ok none => tryReadExts env label base fn l2
      | r => r := by
  induction l1 with
  | nil => simp [tryReadExts]
  | cons e es ih =>
      simp only [List.cons_append, tryReadExts]
      by_cases hfs : env.fs (base ++ [fn ++ "." ++ e]) = true
      · simp only [hfs, if_true]
        cases env.parse (base ++ [fn ++ "." ++ e]) <;> rfl
      · simp only [Bool.not_eq_true] at hfs
        simp only [hfs, Bool.false_eq_true, if_false]
        exact ih

/-- The extension loop equals: find the first existing extension, then parse
that single file. -/
theorem tryReadExts_eq_find (env : ResolverEnv) (label : String) (base : List String)
    (fn : String) (exts : List String) :
    tryReadExts env label base fn exts =
      match exts.find? (fun ext => env.fs (base ++ [fn ++ "." ++ ext])) with
      | none => .ok none
      | some ext =>
          match env.parse (base ++ [fn ++ "." ++ ext]) with
          | .error e => .error e
          | .ok config =>
              .ok (some (PropertySource.new
                    (make_source_name label (base ++ [fn ++ "." ++ ext])) config)) := by
  induction exts with
  | nil => rfl
  | cons e es ih =>
      simp only [tryReadExts, List.find?]
      by_cases hfs : env.fs (base ++ [fn ++ "." ++ e]) = true
      · simp [hfs]
      · simp only [Bool.not_eq_true] at hfs
        simp [hfs, ih]

/-- Rust `try_read_config` tries, across its format loop, exactly the flat
extension priority list `yml, yaml, json, properties`. -/
theorem try_read_config_eq (env : ResolverEnv) (label : String) (base : List String)
    (name : String) (profile : Option String) :
    try_read_config env label base name profile =
      tryReadExts env label base (mkFilename name profile) extPriority := by
  have hsplit : extPriority = ["yml", "yaml"] ++ (["json"] ++ ["properties"]) := rfl
  rw [hsplit, tryReadExts_append, tryReadExts_append]
  show tryReadFormats env label base (mkFilename name profile) ConfigFormat.all = _
  simp only [tryReadFormats, ConfigFormat.all, ConfigFormat.extensions]
  cases tryReadExts env label base (mkFilename name profile) ["yml", "yaml"] with
  | error e => rfl
  | ok o =>
      cases o with
      | some s => rfl
      | none =>
          cases tryReadExts env label base (mkFilename name profile) ["json"] with
          | error e => rfl
          | ok o2 =>
              cases o2 with
              | some s => rfl
              | none =>
                  cases tryReadExts env label base (mkFilename name profile) ["properties"] with
                  | error e => rfl
                  | ok o3 => cases o3 <;> rfl

/-- Rust `try_read_config`, in the find-then-parse shape used by the spec-side
collection. -/
theorem try_read_config_eq_spec (env : ResolverEnv) (label : String)
    (base : List String) (name : String) (profile : Option String) :
    try_read_config env label base name profile =
      match firstExistingExt env.fs base (mkFilename name profile) with
      | none => .ok none
      | some ext =>
          match env.parse (base ++ [mkFilename name profile ++ "." ++ ext]) with
          | .error e => .error e
          | .ok config =>
              .ok (some (PropertySource.new
                    (make_source_name label (base ++ [mkFilename name profile ++ "." ++ ext]))
                    config)) := by
  rw [try_read_config_eq, tryReadExts_eq_find]
  rfl

theorem specCollect_append (env : ResolverEnv) (label : String)
    (l1 l2 : List (List String × String)) :
    specCollect env label (l1 ++ l2) =
      match specCollect env label l1 with
      | .error e => .error e
      | .ok s1 =>
          match specCollect env label l2 with
          | .error e => .error e
          | .ok s2 => .ok (s1 ++ s2) := by
  induction l1 with
  | nil =>
      simp only [List.nil_append, specCollect]
      cases specCollect env label l2 <;> rfl
  | cons c cs ih =>
      obtain ⟨base, fn⟩ := c
      simp only [List.cons_append, specCollect]
      cases hfe : firstExistingExt env.fs base fn with
      | none => exact ih
      | some ext =>
          dsimp only
          cases hp : env.parse (base ++ [fn ++ "." ++ ext]) with
          | error e => rfl
          | ok config =>
              dsimp only
              rw [List.append_eq, ih]
              cases specCollect env label cs with
              | error e => rfl
              | ok s1 =>
                  dsimp only
                  cases specCollect env label l2 with
                  | error e => rfl
                  | ok s2 => simp

/-- A single candidate read by the spec-side collection is a
`try_read_config` call with its optional result listed. -/
theorem specCollect_single (env : ResolverEnv) (label : String) (base : List String)
    (name : String) :
    specCollect env label [(base, name)] =
      match try_read_config env label base name none with
      | .error e => .error e
      | .ok o => .ok o.toList := by
  rw [try_read_config_eq_spec]
  simp only [specCollect, mkFilename]
  cases hfe : firstExistingExt env.fs base name with
  | none => rfl
  | some ext =>
      dsimp only
      cases hp : env.parse (base ++ [name ++ "." ++ ext]) with
      | error e => rfl
      | ok config => rfl

/-- The per-profile loop reads exactly the `name-<profile>` candidates in
profile order. -/
theorem collectProfiles_eq (env : ResolverEnv) (label : String) (base : List String)
    (name : String) (profiles : List String) :
    collectProfiles env label base name profiles =
      specCollect env label (profiles.map (fun p => (base, name ++ "-" ++ p))) := by
  induction profiles with
  | nil => rfl
  | cons p ps ih =>
      simp only [List.map_cons, collectProfiles, specCollect]
      rw [try_read_config_eq_spec, ih]
      simp only [mkFilename]
      cases hfe : firstExistingExt env.fs base (name ++ "-" ++ p) with
      | none =>
          dsimp only
          cases specCollect env label (ps.map (fun p => (base, name ++ "-" ++ p))) with
          | error e => rfl
          | ok rest => simp
      | some ext =>
          dsimp only
          cases hp : env.parse (base ++ [name ++ "-" ++ p ++ "." ++ ext]) with
          | error e => rfl
          | ok config =>
              dsimp only
              cases specCollect env label (ps.map (fun p => (base, name ++ "-" ++ p))) with
              | error e => rfl
              | ok rest => simp

/-- The per-base generation of `resolve` reads exactly the claim's candidate
list for that base, in generation order. -/
theorem resolveBase_eq (env : ResolverEnv) (label : String) (base : List String)
    (app : String) (profiles : List String) :
    resolveBase env label base app profiles =
      specCollect env label
        ((base, "application") :: profiles.map (fun p => (base, "application" ++ "-" ++ p))
          ++ (base, app) :: profiles.map (fun p => (base, app ++ "-" ++ p))) := by
  have hshape :
      (base, "application") :: profiles.map (fun p => (base, "application" ++ "-" ++ p))
          ++ (base, app) :: profiles.map (fun p => (base, app ++ "-" ++ p))
        = [(base, "application")] ++ (profiles.map (fun p => (base, "application" ++ "-" ++ p))
            ++ ([(base, app)] ++ profiles.map (fun p => (base, app ++ "-" ++ p)))) := by
    simp
  rw [hshape, specCollect_append, specCollect_append, specCollect_append,
    specCollect_single, specCollect_single, ← collectProfiles_eq, ← collectProfiles_eq]
  simp only [resolveBase]
  cases try_read_config env label base "application" none with
  | error e => rfl
  | ok o1 =>
      dsimp only
      cases collectProfiles env label base "application" profiles with
      | error e => rfl
      | ok l1 =>
          dsimp only
          cases try_read_config env label base app none with
          | error e => rfl
          | ok o2 =>
              dsimp only
              cases collectProfiles env label base app profiles with
              | error e => rfl
              | ok l2 => simp

/-- The search-path loop reads exactly the concatenation of the per-base
candidate lists, in search-path order. -/
theorem resolveAll_eq (env : ResolverEnv) (label : String) (app : String)
    (profiles : List String) (sps : List String) :
    resolveAll env label app profiles sps =
      specCollect env label (sps.flatMap (fun sp =>
        (baseOf sp, "application")
            :: profiles.map (fun p => (baseOf sp, "application" ++ "-" ++ p))
          ++ (baseOf sp, app) :: profiles.map (fun p => (baseOf sp, app ++ "-" ++ p)))) := by
  induction sps with
  | nil => rfl
  | cons sp sps ih =>
      simp only [List.flatMap_cons, resolveAll, specCollect_append, resolveBase_eq, ih]

/-- C1: `ConfigFileResolver::resolve` returns exactly what the claim
describes — per search path in order, the candidates `application`,
`application-<profile>` per profile, `<app>`, `<app>-<profile>` per profile,
each resolved to its first existing extension in the priority order
`yml, yaml, json, properties` (missing candidates silently omitted, parser
errors propagated), each named `git:<label>:<relative-path>`, with the whole
list reversed so the highest-precedence source comes first. -/
theorem resolver_resolve_spec (env : ResolverEnv) (q : ConfigQuery) (label : String) :
    resolve env q label = resolveSpec env q label := by
  simp only [resolve, resolveSpec, specCandidates, resolveAll_eq]

/-- Evaluation of the embedded resolver on the specification's concrete
scenario C: a root containing `application.yml`, `application-dev.yml`,
`myapp.yml` and `myapp-dev.yml` queried as `(myapp, [dev], main)` yields the
four sources in the order `myapp-dev, myapp, application-dev, application`,
named `git:main:<file>`. -/
theorem resolve_scenario_c :
    (resolve
        ⟨[],
          fun p => [["application.yml"], ["application-dev.yml"], ["myapp.yml"],
            ["myapp-dev.yml"]].contains p,
          fun _ => .ok ⟨[]⟩⟩
        ⟨"myapp", ["dev"]⟩ "main").map (fun l => l.map (fun s => s.name)) =
      .ok ["git:main:myapp-dev.yml", "git:main:myapp.yml",
        "git:main:application-dev.yml", "git:main:application.yml"] := by
  rfl

end Vortex
